import Mathlib

/-!
Verification of the JSON grammar in src/json.rs (a winnow-based
recursive-descent parser).

Modelling conventions:
* The input cursor is a suffix of the input, represented as a list of
  characters.  A winnow parser running on a mutable input reference is
  modelled as a function from the cursor to a result that carries the
  cursor state in both the success and the failure case: on failure the
  returned cursor is wherever the failing parser left it (winnow does not
  reset automatically; alt resets to its checkpoint before trying each
  alternative but not after the last one fails, and opt resets when its
  inner parser fails, which is mirrored in the definitions below).
* Rust f64 values produced by parsing decimal literals are modelled as
  exact rationals; every literal compared in the claims is load-bearing
  only up to distinctions that survive rounding.
* Rust i64 parsing via FromStr is modelled as a decimal read that fails
  when the value exceeds the i64 maximum (the try_map used by parse_to
  resets the cursor to its checkpoint before reporting the failure).
* HashMap accumulation in separated is modelled by the ordered list of
  key/value insertions; the map view is buildMap and its lookup is
  lookupMap.
* The recursion through parse_value / parse_array / parse_object is
  modelled with a fuel parameter; the entry point supplies fuel larger
  than the input length, which is enough because every recursive descent
  consumes input.
-/

namespace Json

/-- Result of running a parser: on success, the value and the remaining
cursor; on failure, the cursor state at the point of failure. -/
inductive PR (α : Type) where
  | ok : α → List Char → PR α
  | fail : List Char → PR α
deriving DecidableEq, Repr

/-- The Num enum of src/json.rs; Float is modelled as an exact rational. -/
inductive Num where
  | Int : ℤ → Num
  | Float : ℚ → Num
deriving DecidableEq, Repr

/-- The JsonValue enum of src/json.rs.  Object carries the insertion
sequence fed to the HashMap accumulator, in parse order. -/
inductive JsonValue where
  | Null : JsonValue
  | Bool : Bool → JsonValue
  | Number : Num → JsonValue
  | String : List Char → JsonValue
  | Array : List JsonValue → JsonValue
  | Object : List (List Char × JsonValue) → JsonValue
deriving Repr

/-- ASCII decimal digit test, as winnow AsChar::is_dec_digit. -/
def isDigitChar (c : Char) : Bool := c.isDigit

/-- Whitespace as matched by winnow multispace0. -/
def isWSChar (c : Char) : Bool :=
  c = ' ' || c = '\t' || c = '\r' || c = '\n'

/-- multispace0: consume any run of whitespace, never fails. -/
def ws (i : List Char) : List Char := i.dropWhile isWSChar

/-- Match a literal character sequence at the head of the cursor,
returning the rest on success. -/
def matchLit : List Char → List Char → Option (List Char)
  | [], i => some i
  | _ :: _, [] => none
  | c :: cs, d :: ds => if c = d then matchLit cs ds else none

/-- A literal tag parser: no consumption on failure. -/
def lit (s : List Char) (i : List Char) : PR Unit :=
  match matchLit s i with
  | some r => .ok () r
  | none => .fail i

/-- A single-character token parser: no consumption on failure. -/
def charTok (c : Char) (i : List Char) : PR Unit :=
  match i with
  | [] => .fail i
  | d :: rest => if d = c then .ok () rest else .fail i

/-- parse_null of src/json.rs. -/
def parse_null (i : List Char) : PR Unit := lit "null".toList i

/-- parse_bool of src/json.rs: alt of the two literal tags, converted to
a boolean. -/
def parse_bool (i : List Char) : PR Bool :=
  match lit "true".toList i with
  | .ok _ r => .ok true r
  | .fail _ =>
    match lit "false".toList i with
    | .ok _ r => .ok false r
    | .fail _ => .fail i

/-- digit1: the maximal nonempty run of ASCII digits; fails without
consuming when no digit is present. -/
def digit1 (i : List Char) : PR (List Char) :=
  let ds := i.takeWhile isDigitChar
  if ds = [] then .fail i else .ok ds (i.dropWhile isDigitChar)

/-- Value of a digit run read in base ten. -/
def digitsToNat (ds : List Char) : Nat :=
  ds.foldl (fun acc c => 10 * acc + (c.toNat - '0'.toNat)) 0

/-- Largest value of a 64-bit signed integer. -/
def i64Max : Nat := 9223372036854775807

/-- digit1.parse_to::<i64>() — reads a digit run and converts it; the
conversion fails when the value does not fit in an i64, and the try_map
inside parse_to resets the cursor to its checkpoint in that case. -/
def parse_to_i64 (i : List Char) : PR Int :=
  match digit1 i with
  | .fail r => .fail r
  | .ok ds r =>
    if digitsToNat ds ≤ i64Max then .ok (Int.ofNat (digitsToNat ds)) r
    else .fail i

/-- Number of characters in the decimal representation of a natural
number, as produced by Rust integer formatting. -/
def decLen (n : Nat) : Nat := (Nat.toDigits 10 n).length

/-- Powers of ten, written out so that they evaluate by kernel
reduction. -/
def pow10 : Nat → Nat
  | 0 => 1
  | d + 1 => 10 * pow10 d

/-- opt("-") mapped to a sign flag; opt resets the cursor on failure of
the inner parser. -/
def optMinus (i : List Char) : Bool × List Char :=
  match matchLit "-".toList i with
  | some r => (true, r)
  | none => (false, i)

/-- parse_num of src/json.rs: optional sign, mandatory integer digit run
read as i64, then optionally a dot and a mandatory fractional digit run
read as i64; the float value is rebuilt from the formatted integer and
fractional values (so leading zeros of the fractional run are lost). -/
def parse_num (i : List Char) : PR Num :=
  let s := optMinus i
  match parse_to_i64 s.2 with
  | .fail r => .fail r
  | .ok num i2 =>
    match matchLit ".".toList i2 with
    | none => .ok (Num.Int (if s.1 then -num else num)) i2
    | some i3 =>
      match parse_to_i64 i3 with
      | .fail r => .fail r
      | .ok frac i4 =>
        let d := decLen frac.toNat
        let v : ℚ := mkRat (num * (pow10 d : ℤ) + frac) (pow10 d)
        .ok (Num.Float (if s.1 then -v else v)) i4

/-- take_until(0.., a double quote): consumes up to but not including the
next double quote; fails without consuming when none exists. -/
def take_until_dq (i : List Char) : PR (List Char) :=
  if '"' ∈ i then
    .ok (i.takeWhile (fun c => c ≠ '"')) (i.dropWhile (fun c => c ≠ '"'))
  else .fail i

/-- parse_string of src/json.rs: delimited(dquote, take_until dquote,
dquote); no escape handling. -/
def parse_string (i : List Char) : PR (List Char) :=
  match charTok '"' i with
  | .fail r => .fail r
  | .ok _ i1 =>
    match take_until_dq i1 with
    | .fail r => .fail r
    | .ok sVal i2 =>
      match charTok '"' i2 with
      | .fail r => .fail r
      | .ok _ i3 => .ok sVal i3

/-- sep_with_space of src/json.rs: multispace0, the wrapped parser, then
multispace0 again, producing unit. -/
def sep_with_space {α : Type} (p : List Char → PR α) (i : List Char) :
    PR Unit :=
  match p (ws i) with
  | .fail r => .fail r
  | .ok _ r => .ok () (ws r)

/-- The family of mutually recursive parsers at one fuel level.  vBody is
parse_value, arrBody parse_array, objBody parse_object; vsFirst and
vsTail are the two phases of separated(0.., parse_value, comma) and
psFirst and psTail those of separated(1.., key/value pair, comma). -/
structure Parsers where
  vBody : List Char → PR JsonValue
  arrBody : List Char → PR (List JsonValue)
  objBody : List Char → PR (List (List Char × JsonValue))
  vsFirst : List Char → PR (List JsonValue)
  vsTail : List JsonValue → List Char → PR (List JsonValue)
  psFirst : List Char → PR (List (List Char × JsonValue))
  psTail : List (List Char × JsonValue) → List Char →
    PR (List (List Char × JsonValue))

/-- Out-of-fuel approximation: everything fails. -/
def failParsers : Parsers where
  vBody i := .fail i
  arrBody i := .fail i
  objBody i := .fail i
  vsFirst i := .fail i
  vsTail _ i := .fail i
  psFirst i := .fail i
  psTail _ i := .fail i

/-- One level of the recursion: each body of src/json.rs, with every
recursive call referring to the previous fuel level. -/
def stepParsers (prev : Parsers) : Parsers where
  vBody i :=
    match parse_null i with
    | .ok _ r => .ok JsonValue.Null r
    | .fail _ =>
    match parse_bool i with
    | .ok b r => .ok (JsonValue.Bool b) r
    | .fail _ =>
    match parse_num i with
    | .ok n r => .ok (JsonValue.Number n) r
    | .fail _ =>
    match parse_string i with
    | .ok sVal r => .ok (JsonValue.String sVal) r
    | .fail _ =>
    match prev.arrBody i with
    | .ok a r => .ok (JsonValue.Array a) r
    | .fail _ =>
    match prev.objBody i with
    | .ok o r => .ok (JsonValue.Object o) r
    | .fail r => .fail r
  arrBody i :=
    match sep_with_space (charTok '[') i with
    | .fail r => .fail r
    | .ok _ i1 =>
      match prev.vsFirst i1 with
      | .fail r => .fail r
      | .ok vs i2 =>
        match sep_with_space (charTok ']') i2 with
        | .fail r => .fail r
        | .ok _ i3 => .ok vs i3
  objBody i :=
    match sep_with_space (charTok '{') i with
    | .fail r => .fail r
    | .ok _ i1 =>
      match prev.psFirst i1 with
      | .fail r => .fail r
      | .ok pairs i2 =>
        match sep_with_space (charTok '}') i2 with
        | .fail r => .fail r
        | .ok _ i3 => .ok pairs i3
  vsFirst i :=
    match prev.vBody i with
    | .fail _ => .ok [] i
    | .ok v i1 => prev.vsTail [v] i1
  vsTail acc i :=
    match sep_with_space (charTok ',') i with
    | .fail _ => .ok acc i
    | .ok _ i1 =>
      if i1.length = i.length then .fail i1
      else
        match prev.vBody i1 with
        | .fail _ => .ok acc i
        | .ok v i2 => prev.vsTail (acc ++ [v]) i2
  psFirst i :=
    match parse_string i with
    | .fail r => .fail r
    | .ok k i1 =>
      match sep_with_space (charTok ':') i1 with
      | .fail r => .fail r
      | .ok _ i2 =>
        match prev.vBody i2 with
        | .fail r => .fail r
        | .ok v i3 => prev.psTail [(k, v)] i3
  psTail acc i :=
    match sep_with_space (charTok ',') i with
    | .fail _ => .ok acc i
    | .ok _ i1 =>
      if i1.length = i.length then .fail i1
      else
        match parse_string i1 with
        | .fail _ => .ok acc i
        | .ok k i2 =>
          match sep_with_space (charTok ':') i2 with
          | .fail _ => .ok acc i
          | .ok _ i3 =>
            match prev.vBody i3 with
            | .fail _ => .ok acc i
            | .ok v i4 => prev.psTail (acc ++ [(k, v)]) i4

/-- Fuel-indexed family of the recursive parsers. -/
def parsersAt : Nat → Parsers
  | 0 => failParsers
  | n + 1 => stepParsers (parsersAt n)

/-- parse_value of src/json.rs at a given fuel. -/
def parse_value (fuel : Nat) (i : List Char) : PR JsonValue :=
  (parsersAt fuel).vBody i

/-- parse_array of src/json.rs at a given fuel. -/
def parse_array (fuel : Nat) (i : List Char) : PR (List JsonValue) :=
  (parsersAt fuel).arrBody i

/-- parse_object of src/json.rs at a given fuel. -/
def parse_object (fuel : Nat) (i : List Char) :
    PR (List (List Char × JsonValue)) :=
  (parsersAt fuel).objBody i

/-- parse_json of src/json.rs: run parse_value on the whole input and
return its value, mapping a parse failure to none.  The fuel bound is
adequate because every recursive descent into parse_value consumes at
least one input character and crosses at most three fuel levels, and
every separated-list iteration consumes at least one character and
crosses one level. -/
def parse_json (s : String) : Option JsonValue :=
  match parse_value (3 * s.length + 3) s.toList with
  | .ok v _ => some v
  | .fail _ => none

/-- HashMap::insert on the association-list model: replace the value of
an existing key, otherwise append. -/
def insertPair : List (List Char × JsonValue) → List Char → JsonValue →
    List (List Char × JsonValue)
  | [], k, v => [(k, v)]
  | (k0, v0) :: rest, k, v =>
    if k0 = k then (k0, v) :: rest else (k0, v0) :: insertPair rest k v

/-- HashMap lookup on the association-list model. -/
def lookupMap : List (List Char × JsonValue) → List Char →
    Option JsonValue
  | [], _ => none
  | (k0, v0) :: rest, k => if k0 = k then some v0 else lookupMap rest k

/-- The HashMap built from the insertion sequence that separated feeds
to its accumulator. -/
def buildMap (ps : List (List Char × JsonValue)) :
    List (List Char × JsonValue) :=
  ps.foldl (fun m p => insertPair m p.1 p.2) []

/-- Value of the last occurrence of a key in an insertion sequence. -/
def lastVal : List (List Char × JsonValue) → List Char → Option JsonValue
  | [], _ => none
  | (k0, v0) :: rest, k =>
    match lastVal rest k with
    | some v => some v
    | none => if k0 = k then some v0 else none

/-- The object literal with the key a bound twice, used to demonstrate
duplicate-key handling. -/
def dupKeyInput : List Char :=
  ['{', '"', 'a', '"', ':', '1', ',', ' ', '"', 'a', '"', ':', '2', '}']

/-- Whether a cursor does not start with a character satisfying p. -/
def headNot (p : Char → Bool) : List Char → Bool
  | [] => true
  | c :: _ => !(p c)

/-- First-or-second choice on options. -/
def orO (a b : Option JsonValue) : Option JsonValue :=
  match a with
  | some v => some v
  | none => b

/-! Helper lemmas shared by the claim theorems. -/

theorem takeWhile_append_all (p : Char → Bool) (ds rest : List Char)
    (h1 : ds.all p = true) (h2 : headNot p rest = true) :
    (ds ++ rest).takeWhile p = ds ∧ (ds ++ rest).dropWhile p = rest := by
  induction ds with
  | nil =>
    cases rest with
    | nil => simp
    | cons c t =>
      simp only [headNot, Bool.not_eq_true'] at h2
      simp [List.takeWhile_cons, List.dropWhile_cons, h2]
  | cons d ds ih =>
    simp only [List.all_cons, Bool.and_eq_true] at h1
    have hrec := ih h1.2
    simp [List.takeWhile_cons, List.dropWhile_cons, h1.1, hrec.1, hrec.2]

theorem digit1_append (ds rest : List Char) (h0 : ds ≠ [])
    (h1 : ds.all isDigitChar = true)
    (h2 : headNot isDigitChar rest = true) :
    digit1 (ds ++ rest) = PR.ok ds rest := by
  have h := takeWhile_append_all isDigitChar ds rest h1 h2
  simp [digit1, h.1, h.2, h0]

theorem parse_to_i64_append (ds rest : List Char) (h0 : ds ≠ [])
    (h1 : ds.all isDigitChar = true)
    (h2 : headNot isDigitChar rest = true)
    (h3 : digitsToNat ds ≤ i64Max) :
    parse_to_i64 (ds ++ rest) = PR.ok (Int.ofNat (digitsToNat ds)) rest := by
  simp [parse_to_i64, digit1_append ds rest h0 h1 h2, h3]

theorem dropWhile_append_of_all (p : Char → Bool) (t rest : List Char)
    (h : t.all p = true) :
    (t ++ rest).dropWhile p = rest.dropWhile p := by
  induction t with
  | nil => simp
  | cons c t ih =>
    simp only [List.all_cons, Bool.and_eq_true] at h
    simp [List.dropWhile_cons, h.1, ih h.2]

theorem dq_dropWhile (t : List Char) (h : '"' ∈ t) :
    ∃ u, t.dropWhile (fun c => c ≠ '"') = '"' :: u := by
  induction t with
  | nil => cases h
  | cons c t ih =>
    by_cases hc : c = '"'
    · subst hc
      exact ⟨t, by simp [List.dropWhile_cons]⟩
    · have hm : '"' ∈ t := by
        rcases List.mem_cons.mp h with h1 | h1
        · exact absurd h1.symm hc
        · exact h1
      obtain ⟨u, hu⟩ := ih hm
      refine ⟨u, ?_⟩
      simp only [ne_eq, decide_not] at hu ⊢
      simp [List.dropWhile_cons, hc, hu]

theorem psFirst_rbrace (fuel : Nat) :
    (parsersAt fuel).psFirst (['}'] : List Char) = PR.fail ['}'] := by
  cases fuel with
  | zero => rfl
  | succ n => rfl

theorem lookup_insertPair (m : List (List Char × JsonValue)) (k : List Char)
    (v : JsonValue) (q : List Char) :
    lookupMap (insertPair m k v) q
      = if q = k then some v else lookupMap m q := by
  induction m with
  | nil =>
    by_cases h : q = k
    · subst h
      simp [insertPair, lookupMap]
    · have h2 : ¬ k = q := fun e => h e.symm
      simp [insertPair, lookupMap, h, h2]
  | cons hd tl ih =>
    obtain ⟨k0, v0⟩ := hd
    by_cases h1 : k0 = k
    · subst h1
      by_cases h2 : q = k0
      · subst h2
        simp [insertPair, lookupMap]
      · have h3 : ¬ k0 = q := fun e => h2 e.symm
        simp [insertPair, lookupMap, h2, h3]
    · by_cases h2 : q = k
      · subst h2
        simp [insertPair, lookupMap, h1, ih]
      · by_cases h3 : k0 = q
        · subst h3
          simp [insertPair, lookupMap, h1, h2]
        · simp [insertPair, lookupMap, h1, h2, h3, ih]

theorem lookup_foldl (ps m : List (List Char × JsonValue)) (k : List Char) :
    lookupMap (List.foldl (fun acc p => insertPair acc p.1 p.2) m ps) k
      = orO (lastVal ps k) (lookupMap m k) := by
  induction ps generalizing m with
  | nil => simp [lastVal, orO]
  | cons hd tl ih =>
    obtain ⟨k0, v0⟩ := hd
    simp only [List.foldl_cons]
    rw [ih, lookup_insertPair]
    cases hl : lastVal tl k with
    | some v => simp [lastVal, hl, orO]
    | none =>
      by_cases hk : k = k0
      · subst hk
        simp [lastVal, hl, orO]
      · have hk2 : ¬ k0 = k := fun e => hk e.symm
        simp [lastVal, hl, orO, hk, hk2]

theorem buildMap_lastVal (ps : List (List Char × JsonValue))
    (k : List Char) :
    lookupMap (buildMap ps) k = lastVal ps k := by
  have h := lookup_foldl ps [] k
  simp only [buildMap]
  rw [h]
  cases lastVal ps k <;> simp [orO, lookupMap]

theorem pow10_eq_pow (d : Nat) : pow10 d = 10 ^ d := by
  induction d with
  | zero => rfl
  | succ n ih => rw [pow10, ih, pow_succ, Nat.mul_comm]

theorem mkRat_pow10_split (nI nF d : Nat) :
    (mkRat ((nI : ℤ) * (pow10 d : ℤ) + (nF : ℤ)) (pow10 d) : ℚ)
      = (nI : ℚ) + (nF : ℚ) / (10 : ℚ) ^ d := by
  have hp : pow10 d = 10 ^ d := pow10_eq_pow d
  have hq : ((pow10 d : ℕ) : ℚ) ≠ 0 := by
    rw [hp]
    positivity
  rw [Rat.mkRat_eq_div]
  push_cast [hp]
  field_simp

/-! Claim theorems. -/

/-- C1 (counterexample): parse_json does not reject trailing input.  On
the input with the value null followed by garbage it succeeds and
returns the parsed Null value, although the unconsumed remainder
contains non-whitespace characters. -/
theorem parse_json_trailing_input_counterexample :
    parse_json "null garbage" = some JsonValue.Null
    ∧ parse_value (3 * "null garbage".length + 3) "null garbage".toList
      = PR.ok JsonValue.Null " garbage".toList
    ∧ ws " garbage".toList ≠ [] := by
  refine ⟨rfl, rfl, ?_⟩
  decide

/-- C1 (amended): parse_json performs no end-of-input verification:
whenever the single parse_value call succeeds, parse_json returns the
parsed value no matter what remains unconsumed; there is no trailing
input error in the code. -/
theorem parse_json_returns_value_ignoring_rest (s : String) (v : JsonValue)
    (r : List Char)
    (h : parse_value (3 * s.length + 3) s.toList = PR.ok v r) :
    parse_json s = some v := by
  have h2 : parse_value (3 * s.length + 3) s.data = PR.ok v r := h
  simp [parse_json, h2]

/-- C1 (witness): the amended theorem applied to the trailing-garbage
input. -/
theorem parse_json_returns_value_ignoring_rest_witness :
    parse_json "null garbage" = some JsonValue.Null :=
  parse_json_returns_value_ignoring_rest "null garbage" JsonValue.Null
    " garbage".toList rfl

/-- C2 (counterexample): parse_num can fail after consuming input.  On a
minus sign followed by a non-digit it consumes the minus sign and then
fails, leaving the cursor advanced past it. -/
theorem parse_num_consumes_on_failure :
    parse_num "-x".toList = PR.fail "x".toList
    ∧ "x".toList ≠ "-x".toList := by
  exact ⟨rfl, by decide⟩

/-- C2 (amended): parse_null and parse_bool never move the cursor on
failure, but the invariant does not hold for every matcher and
combinator: parse_num fails after consuming the minus sign on a minus
followed by a non-digit, parse_string fails after consuming the opening
quote when no closing quote exists, and parse_value itself can fail with
the cursor where its last alternative stopped, as on an opening brace
followed by a non-string. -/
theorem matchers_restore_cursor :
    (∀ i r, parse_null i = PR.fail r → r = i)
    ∧ (∀ i r, parse_bool i = PR.fail r → r = i)
    ∧ parse_num "-x".toList = PR.fail "x".toList
    ∧ parse_string "\"a".toList = PR.fail "a".toList
    ∧ parse_value 3 ['{', 'x'] = PR.fail ['x'] := by
  refine ⟨?_, ?_, rfl, rfl, rfl⟩
  · intro i r h
    unfold parse_null lit at h
    split at h
    · cases h
    · cases h
      rfl
  · intro i r h
    unfold parse_bool at h
    split at h
    · cases h
    · split at h
      · cases h
      · cases h
        rfl

/-- C2 (witness): the cursor-restoration part of the amended theorem
applied to a concrete failing parse_null call. -/
theorem matchers_restore_cursor_witness :
    (['x'] : List Char) = ['x'] :=
  matchers_restore_cursor.1 ['x'] ['x'] rfl

/-- C5: parse_object fails on an object literal with zero key/value
pairs: for an opening brace, any whitespace and a closing brace, the
one-element minimum of the pair list makes the parse fail. -/
theorem parse_object_rejects_empty (fuel : Nat) (t : List Char)
    (h : t.all isWSChar = true) :
    parse_object (fuel + 1) ('{' :: (t ++ ['}'])) = PR.fail ['}'] := by
  have h1 : ws ('{' :: (t ++ ['}'])) = '{' :: (t ++ ['}']) := rfl
  have h2 : ws (t ++ ['}']) = ['}'] := by
    unfold ws
    rw [dropWhile_append_of_all isWSChar t ['}'] h]
    rfl
  simp [parse_object, parsersAt, stepParsers, sep_with_space, charTok, h1,
    h2, psFirst_rbrace fuel]

/-- C5 (witness): the empty-object rejection at the literal empty object
input. -/
theorem parse_object_rejects_empty_witness :
    parse_object 1 ['{', '}'] = PR.fail ['}'] :=
  parse_object_rejects_empty 0 [] rfl

/-- C7: the sample values of parse_num: plain digit runs give Int with
optional negation, fractional forms give Float, and a bare minus sign or
a bare dot fails. -/
theorem parse_num_examples :
    parse_num "123".toList = PR.ok (Num.Int 123) []
    ∧ parse_num "-456".toList = PR.ok (Num.Int (-456)) []
    ∧ parse_num "123.456".toList = PR.ok (Num.Float (123.456 : ℚ)) []
    ∧ parse_num "-789.12".toList = PR.ok (Num.Float (-(789.12 : ℚ))) []
    ∧ parse_num "-".toList = PR.fail []
    ∧ parse_num ".".toList = PR.fail ['.'] := by
  have e1 : (123.456 : ℚ) = mkRat 123456 1000 := by norm_num
  have e2 : (789.12 : ℚ) = mkRat 78912 100 := by norm_num
  refine ⟨rfl, rfl, ?_, ?_, rfl, rfl⟩
  · rw [e1]
    rfl
  · rw [e2]
    rfl

/-- C8: parse_array accepts the empty array, returning the empty list,
and parses a three-element array in order. -/
theorem parse_array_examples :
    parse_array ("[]".length + 1) "[]".toList = PR.ok [] []
    ∧ parse_array ("[1,2,3]".length + 1) "[1,2,3]".toList
      = PR.ok [JsonValue.Number (Num.Int 1), JsonValue.Number (Num.Int 2),
          JsonValue.Number (Num.Int 3)] [] :=
  ⟨rfl, rfl⟩

/-- C3 (counterexample): the fractional digit text is not preserved
verbatim: on the decimal one point zero five, parse_num produces the
value fifteen tenths (one point five) instead of the spec value, because
the fractional digits are read into an integer and reformatted, dropping
the leading zero. -/
theorem parse_num_frac_leading_zero_counterexample :
    parse_num "1.05".toList = PR.ok (Num.Float (mkRat 15 10)) []
    ∧ mkRat 15 10 ≠ (1.05 : ℚ) := by
  constructor
  · rfl
  · norm_num

/-- C3 (amended): for a number text made of an optional minus sign, an
integer digit run I, a dot, and a fractional digit run F (both runs
within the i64 range), parse_num produces the Float whose value is the
integer value of I plus the integer value of F divided by ten to the
number of digits of the decimal representation of that integer value —
that is, leading zeros of the fractional digit run are dropped — negated
when the sign is present. -/
theorem parse_num_fractional_value (sgn : Bool) (I F rest : List Char)
    (hI0 : I ≠ []) (hI1 : I.all isDigitChar = true)
    (hF0 : F ≠ []) (hF1 : F.all isDigitChar = true)
    (hrest : headNot isDigitChar rest = true)
    (hImax : digitsToNat I ≤ i64Max) (hFmax : digitsToNat F ≤ i64Max) :
    parse_num ((if sgn then ['-'] else []) ++ I ++ '.' :: (F ++ rest))
      = PR.ok (Num.Float
          (if sgn then
            -((digitsToNat I : ℚ)
              + (digitsToNat F : ℚ) / (10 : ℚ) ^ decLen (digitsToNat F))
          else
            (digitsToNat I : ℚ)
              + (digitsToNat F : ℚ) / (10 : ℚ) ^ decLen (digitsToNat F)))
        rest := by
  have hdot : headNot isDigitChar ('.' :: (F ++ rest)) = true := rfl
  have hIrun := parse_to_i64_append I ('.' :: (F ++ rest)) hI0 hI1 hdot hImax
  have hFrun := parse_to_i64_append F rest hF0 hF1 hrest hFmax
  have hopt : optMinus ((if sgn then ['-'] else []) ++ (I ++ '.' :: (F ++ rest)))
      = (sgn, I ++ '.' :: (F ++ rest)) := by
    cases sgn with
    | true => rfl
    | false =>
      cases I with
      | nil => exact absurd rfl hI0
      | cons c I2 =>
        have hc : isDigitChar c = true := by
          simp only [List.all_cons, Bool.and_eq_true] at hI1
          exact hI1.1
        have hne : ¬ ('-' = c) := by
          intro e
          rw [← e] at hc
          exact absurd hc (by decide)
        simp [optMinus, matchLit, hne]
  simp only [List.append_assoc] at hopt ⊢
  cases sgn with
  | false =>
    simp only [Bool.false_eq_true, if_false, List.nil_append] at hopt
    simp [parse_num, hopt, hIrun, matchLit, hFrun, Int.toNat_ofNat,
      mkRat_pow10_split]
  | true =>
    simp only [if_true, List.singleton_append] at hopt
    simp [parse_num, hopt, hIrun, matchLit, hFrun, Int.toNat_ofNat,
      mkRat_pow10_split]

/-- C3 (witness): the amended fractional-value theorem applied to the
one point zero five input. -/
theorem parse_num_fractional_value_witness :
    parse_num ((if false then ['-'] else []) ++ "1".toList
        ++ '.' :: ("05".toList ++ []))
      = PR.ok (Num.Float
          (if false then
            -((digitsToNat "1".toList : ℚ)
              + (digitsToNat "05".toList : ℚ)
                / (10 : ℚ) ^ decLen (digitsToNat "05".toList))
          else
            (digitsToNat "1".toList : ℚ)
              + (digitsToNat "05".toList : ℚ)
                / (10 : ℚ) ^ decLen (digitsToNat "05".toList)))
        [] :=
  parse_num_fractional_value false "1".toList "05".toList []
    (by decide) (by decide) (by decide) (by decide) rfl (by decide) (by decide)

/-- C4: parse_value tries null, bool, number, string, array, object in
this order, each alternative starting from the same cursor position,
taking the first success; and on the null literal it yields Null. -/
theorem parse_value_ordered_choice :
    (∀ fuel i r, parse_null i = PR.ok () r →
      parse_value (fuel + 1) i = PR.ok JsonValue.Null r)
    ∧ (∀ fuel i r0 b r, parse_null i = PR.fail r0 →
      parse_bool i = PR.ok b r →
      parse_value (fuel + 1) i = PR.ok (JsonValue.Bool b) r)
    ∧ (∀ fuel i r0 r1 n r, parse_null i = PR.fail r0 →
      parse_bool i = PR.fail r1 → parse_num i = PR.ok n r →
      parse_value (fuel + 1) i = PR.ok (JsonValue.Number n) r)
    ∧ (∀ fuel i r0 r1 r2 sv r, parse_null i = PR.fail r0 →
      parse_bool i = PR.fail r1 → parse_num i = PR.fail r2 →
      parse_string i = PR.ok sv r →
      parse_value (fuel + 1) i = PR.ok (JsonValue.String sv) r)
    ∧ (∀ fuel i r0 r1 r2 r3 a r, parse_null i = PR.fail r0 →
      parse_bool i = PR.fail r1 → parse_num i = PR.fail r2 →
      parse_string i = PR.fail r3 → parse_array fuel i = PR.ok a r →
      parse_value (fuel + 1) i = PR.ok (JsonValue.Array a) r)
    ∧ (∀ fuel i r0 r1 r2 r3 r4 o r, parse_null i = PR.fail r0 →
      parse_bool i = PR.fail r1 → parse_num i = PR.fail r2 →
      parse_string i = PR.fail r3 → parse_array fuel i = PR.fail r4 →
      parse_object fuel i = PR.ok o r →
      parse_value (fuel + 1) i = PR.ok (JsonValue.Object o) r)
    ∧ (∀ fuel, parse_value (fuel + 1) "null".toList = PR.ok JsonValue.Null []) := by
  refine ⟨?_, ?_, ?_, ?_, ?_, ?_, ?_⟩
  · intro fuel i r h
    simp [parse_value, parsersAt, stepParsers, h]
  · intro fuel i r0 b r h0 h1
    simp [parse_value, parsersAt, stepParsers, h0, h1]
  · intro fuel i r0 r1 n r h0 h1 h2
    simp [parse_value, parsersAt, stepParsers, h0, h1, h2]
  · intro fuel i r0 r1 r2 sv r h0 h1 h2 h3
    simp [parse_value, parsersAt, stepParsers, h0, h1, h2, h3]
  · intro fuel i r0 r1 r2 r3 a r h0 h1 h2 h3 h4
    simp only [parse_array] at h4
    simp [parse_value, parsersAt, stepParsers, h0, h1, h2, h3, h4]
  · intro fuel i r0 r1 r2 r3 r4 o r h0 h1 h2 h3 h4 h5
    simp only [parse_array] at h4
    simp only [parse_object] at h5
    simp [parse_value, parsersAt, stepParsers, h0, h1, h2, h3, h4, h5]
  · intro fuel
    have h : parse_null ('n' :: 'u' :: 'l' :: 'l' :: []) = PR.ok () [] := rfl
    simp [parse_value, parsersAt, stepParsers, h]

/-- C4 (witness): the first-priority case applied to the null literal. -/
theorem parse_value_ordered_choice_witness :
    parse_value 1 "null".toList = PR.ok JsonValue.Null [] :=
  parse_value_ordered_choice.1 0 "null".toList [] rfl

/-- C6: the mapping parse_object builds binds every key to the value of
its last occurrence in the source text: the HashMap accumulated by the
pair list is the fold of insertions over the pairs in parse order, and
its lookup agrees with the last occurrence; demonstrated on an object
literal with a duplicated key, which parses successfully. -/
theorem parse_object_last_write_wins :
    (∀ fuel i ps r k, parse_object fuel i = PR.ok ps r →
      lookupMap (buildMap ps) k = lastVal ps k)
    ∧ parse_object (dupKeyInput.length + 1) dupKeyInput
      = PR.ok [("a".toList, JsonValue.Number (Num.Int 1)),
          ("a".toList, JsonValue.Number (Num.Int 2))] []
    ∧ lookupMap (buildMap [("a".toList, JsonValue.Number (Num.Int 1)),
          ("a".toList, JsonValue.Number (Num.Int 2))]) "a".toList
      = some (JsonValue.Number (Num.Int 2)) := by
  exact ⟨fun fuel i ps r k h => buildMap_lastVal ps k, rfl, rfl⟩

/-- C6 (witness): the last-write-wins lookup at the duplicated-key
object. -/
theorem parse_object_last_write_wins_witness :
    lookupMap (buildMap [("a".toList, JsonValue.Number (Num.Int 1)),
        ("a".toList, JsonValue.Number (Num.Int 2))]) "a".toList
      = lastVal [("a".toList, JsonValue.Number (Num.Int 1)),
          ("a".toList, JsonValue.Number (Num.Int 2))] "a".toList :=
  parse_object_last_write_wins.1 15 dupKeyInput
    [("a".toList, JsonValue.Number (Num.Int 1)),
      ("a".toList, JsonValue.Number (Num.Int 2))] [] "a".toList rfl

/-- C9: parse_string succeeds exactly when the cursor is at a double
quote and another double quote occurs later; on success it returns the
characters strictly between the opening quote and the first subsequent
quote, with no escape interpretation, and the examples of the spec
hold. -/
theorem parse_string_quoted_span :
    (∀ i, (∃ sv r, parse_string i = PR.ok sv r)
        ↔ i.head? = some '"' ∧ '"' ∈ i.tail)
    ∧ (∀ t, '"' ∈ t → parse_string ('"' :: t)
        = PR.ok (t.takeWhile (fun c => c ≠ '"'))
            ((t.dropWhile (fun c => c ≠ '"')).tail))
    ∧ parse_string "\"hello\"".toList = PR.ok "hello".toList []
    ∧ parse_string "\"a".toList = PR.fail "a".toList := by
  have key : ∀ t, '"' ∈ t → ∀ u, t.dropWhile (fun c => c ≠ '"') = '"' :: u →
      parse_string ('"' :: t) = PR.ok (t.takeWhile (fun c => c ≠ '"')) u := by
    intro t hm u hu
    simp only [ne_eq, decide_not] at hu ⊢
    simp [parse_string, charTok, take_until_dq, hm, hu]
  refine ⟨?_, ?_, rfl, rfl⟩
  · intro i
    constructor
    · rintro ⟨sv, r, h⟩
      cases i with
      | nil => simp [parse_string, charTok] at h
      | cons c t =>
        by_cases hc : c = '"'
        · subst hc
          refine ⟨rfl, ?_⟩
          by_cases hm : '"' ∈ t
          · simpa using hm
          · simp [parse_string, charTok, take_until_dq, hm] at h
        · simp [parse_string, charTok, hc] at h
    · rintro ⟨h1, h2⟩
      cases i with
      | nil => simp at h1
      | cons c t =>
        simp at h1 h2
        subst h1
        obtain ⟨u, hu⟩ := dq_dropWhile t h2
        exact ⟨_, _, key t h2 u hu⟩
  · intro t hm
    obtain ⟨u, hu⟩ := dq_dropWhile t hm
    rw [key t hm u hu, hu]
    rfl

/-- C9 (witness): the success-shape part applied to a concrete input
whose body contains an embedded quote. -/
theorem parse_string_quoted_span_witness :
    parse_string ('"' :: "ab\"cd".toList)
      = PR.ok ("ab\"cd".toList.takeWhile (fun c => c ≠ '"'))
          (("ab\"cd".toList.dropWhile (fun c => c ≠ '"')).tail) :=
  parse_string_quoted_span.2.1 "ab\"cd".toList (by decide)

/-- C10: a number whose fractional digit run overflows the 64-bit signed
integer range makes parse_num fail, because the fractional digits are
converted through an i64 before the float text is rebuilt. -/
theorem parse_num_overflowing_fraction :
    parse_num "1.99999999999999999999".toList
      = PR.fail "99999999999999999999".toList
    ∧ i64Max < digitsToNat "99999999999999999999".toList := by
  exact ⟨rfl, by decide⟩

end Json
